import Mathlib

/-!
Verification of the finflow statement-extraction pipeline
(`src/finflow/statement_parsing/pdf_statement_parser.py`,
`transaction_patterns.py`, `transaction_types.py`,
`src/finflow/data_handler/data_loader.py`) against its design
specification.

The Python source is shallowly embedded: pure helpers become Lean
functions over `List Char` / `String`; the PDF reader, the page-text
backend and pandas operations are modelled at their interface
(documents carry their read outcome, the pandas sort is modelled by its
documented postcondition).  Strings are modelled over their ASCII
fragment: Python's `\d` and `str.lower` also act on further Unicode
code points, none of which occur in any claim or fixture.
-/

namespace Finflow

/-- ASCII decimal digit test, code points 48-57 (Python regex `\d`
restricted to ASCII). -/
def isDig (c : Char) : Bool := 48 ≤ c.toNat && c.toNat ≤ 57

/-- Numeric value of a digit character. -/
def dval (c : Char) : Nat := c.toNat - '0'.toNat

/-- The digit character for `n < 10`. -/
def digCh (n : Nat) : Char := Char.ofNat ('0'.toNat + n)

/-- Fold a digit string into the number it denotes. -/
def digitsVal (l : List Char) : Nat := l.foldl (fun a c => 10 * a + dval c) 0

/-- Two-character decimal rendering of `n < 100`. -/
def twoD (n : Nat) : List Char := [digCh (n / 10), digCh (n % 10)]

/-- One-character decimal rendering of `n < 10`. -/
def oneD (n : Nat) : List Char := [digCh n]

/-- Four-character decimal rendering of `n < 10000`. -/
def fourD (n : Nat) : List Char :=
  [digCh (n / 1000), digCh (n / 100 % 10), digCh (n / 10 % 10), digCh (n % 10)]

/-! ## Dates (`datetime.date`) -/

/-- A calendar date as produced by `datetime.date`. -/
structure Date where
  year : Nat
  month : Nat
  day : Nat
deriving DecidableEq, Repr

/-- `datetime.date` ordering: lexicographic on (year, month, day). -/
def dateLe (a b : Date) : Prop :=
  a.year < b.year ∨ (a.year = b.year ∧
    (a.month < b.month ∨ (a.month = b.month ∧ a.day ≤ b.day)))

instance : DecidablePred fun p : Date × Date => dateLe p.1 p.2 := by
  intro p; unfold dateLe; infer_instance

instance (a b : Date) : Decidable (dateLe a b) := by
  unfold dateLe; infer_instance

/-- Leap-year rule used by `datetime` (proleptic Gregorian). -/
def leapYear (y : Nat) : Bool := y % 4 == 0 && (y % 100 != 0 || y % 400 == 0)

/-- Days in a month, as enforced by the `datetime.date` constructor. -/
def daysInMonth (y m : Nat) : Nat :=
  if m = 2 then (if leapYear y then 29 else 28)
  else if m = 4 ∨ m = 6 ∨ m = 9 ∨ m = 11 then 30
  else 31

/-! ## `PDFTransactionParser.parse_date`

`dt.datetime.strptime(date_str, "%d.%m.%Y").date()` with `ValueError`
mapped to `None`.  CPython's `_strptime` compiles the format to the
anchored regex `(3[01]|[12]\d|0[1-9]|[1-9])\.(1[0-2]|0[1-9]|[1-9])\.(\d{4})`
requiring full consumption, then feeds the numbers to the
`datetime` constructor, whose range checks are `1 <= year <= 9999`,
`1 <= month <= 12`, `1 <= day <= daysInMonth`.  Whenever a
two-character alternative of `%d`/`%m` matches, its second character is
a digit, so the one-character alternative (which must be followed by the
literal `.`) can never succeed instead: first-success backtracking over
the alternation collapses to the deterministic reader below. -/

/-- `%d` two-character alternatives `3[01]|[12]\d|0[1-9]`. -/
def dayTwo (c1 c2 : Char) : Bool :=
  (c1 = '3' && (c2 = '0' || c2 = '1')) ||
  ((c1 = '1' || c1 = '2') && isDig c2) ||
  (c1 = '0' && isDig c2 && c2 ≠ '0')

/-- `%d`/`%m` one-character alternative `[1-9]`. -/
def dayOne (c : Char) : Bool := isDig c && c ≠ '0'

/-- `%m` two-character alternatives `1[0-2]|0[1-9]`. -/
def monTwo (c1 c2 : Char) : Bool :=
  (c1 = '1' && (c2 = '0' || c2 = '1' || c2 = '2')) ||
  (c1 = '0' && isDig c2 && c2 ≠ '0')

/-- Read a `%d`/`%m` token: longest alternative first, as in the
compiled `_strptime` regex. -/
def readTok (two : Char → Char → Bool) (one : Char → Bool) :
    List Char → Option (Nat × List Char)
  | c1 :: c2 :: r =>
    if two c1 c2 then some (10 * dval c1 + dval c2, r)
    else if one c1 then some (dval c1, c2 :: r) else none
  | [c1] => if one c1 then some (dval c1, []) else none
  | [] => none

/-- Read `%Y`: exactly four digits. -/
def readYear4 : List Char → Option (Nat × List Char)
  | a :: b :: c :: d :: r =>
    if isDig a && isDig b && isDig c && isDig d then
      some (digitsVal [a, b, c, d], r)
    else none
  | _ => none

/-- `PDFTransactionParser.parse_date`. -/
def parse_date (s : String) : Option Date :=
  match readTok dayTwo dayOne s.data with
  | none => none
  | some (d, r) =>
    match r with
    | [] => none
    | c1 :: r1 =>
      if c1 = '.' then
        match readTok monTwo dayOne r1 with
        | none => none
        | some (m, r2) =>
          match r2 with
          | [] => none
          | c2 :: r3 =>
            if c2 = '.' then
              match readYear4 r3 with
              | none => none
              | some (y, r4) =>
                match r4 with
                | [] =>
                  if 1 ≤ y ∧ d ≤ daysInMonth y m then some ⟨y, m, d⟩ else none
                | _ :: _ => none
            else none
      else none

/-! ## `PDFTransactionParser.parse_amount`

`float(amount_str.replace(".", "").replace(",", "."))` with `ValueError`
mapped to `None`.  Both `str.replace` patterns are single characters and
the first removes every `'.'` before the second turns every `','` into
`'.'`, so the substitution is the character-level pipeline below.
Python `float(str)` accepts optional surrounding whitespace, an optional
sign, `inf`/`infinity`/`nan` (case-insensitively) or a decimal literal
with optional fraction and exponent, with single underscores allowed
between digits.  Values are modelled as exact rationals: the uniform
rounding to binary double preserves every equality the claims compare
(identical decimal literals on both sides); the overflow-to-infinity of
extreme exponents is outside every claim's domain. -/

/-- Result of Python `float()`: a finite value, an infinity, or nan. -/
inductive PyFloat where
  | finite (q : ℚ)
  | inf (neg : Bool)
  | nan
deriving DecidableEq, Repr

/-- Python whitespace stripped by `float(str)` (ASCII fragment). -/
def isPyWS (c : Char) : Bool :=
  c = ' ' || c = '\t' || c = '\n' || c = '\x0d' || c = '\x0c' || c = '\x0b'

/-- Strip leading and trailing whitespace. -/
def stripWS (l : List Char) : List Char :=
  ((l.dropWhile isPyWS).reverse.dropWhile isPyWS).reverse

/-- Every underscore must sit directly between two digits
(CPython's rule for numeric literals passed to `float`). -/
def usOk : Option Char → List Char → Bool
  | _, [] => true
  | prev, c :: rest =>
    if c = '_' then
      (match prev with | some p => isDig p | none => false) &&
      (match rest with | r :: _ => isDig r | [] => false) &&
      usOk (some '_') rest
    else usOk (some c) rest

/-- Optional single sign; returns whether the value is negated. -/
def readSign : List Char → Bool × List Char
  | [] => (false, [])
  | c :: r =>
    if c = '-' then (true, r)
    else if c = '+' then (false, r)
    else (false, c :: r)

/-- ASCII lowercasing (Python `str.lower` on the ASCII fragment). -/
def asciiLower (c : Char) : Char :=
  if 'A' ≤ c && c ≤ 'Z' then Char.ofNat (c.toNat + 32) else c

/-- Case-insensitive comparison of the whole rest against a keyword. -/
def kwIs (l : List Char) (kw : List Char) : Bool :=
  l.map asciiLower == kw

/-- Rational value of `sign intpart . fracpart e exp`, assembled from
integer arithmetic so that it evaluates inside the kernel. -/
def mkRatVal (neg : Bool) (ip fp : List Char) (ex : Int) : ℚ :=
  let n : Nat := digitsVal ip * 10 ^ fp.length + digitsVal fp
  let e : Int := ex - fp.length
  let num : Int := (if neg then -(n : Int) else (n : Int)) * 10 ^ (max e 0).toNat
  let den : Nat := 10 ^ (max (-e) 0).toNat
  mkRat num den

/-- Optional exponent part `([eE] [+-]? digits)?`, then end of input. -/
def readExp (neg : Bool) (ip fp : List Char) : List Char → Option PyFloat
  | [] => some (.finite (mkRatVal neg ip fp 0))
  | e :: r1 =>
    if e = 'e' ∨ e = 'E' then
      let (eneg, r2) := readSign r1
      let ed := r2.takeWhile isDig
      let r3 := r2.dropWhile isDig
      if ed.isEmpty || !r3.isEmpty then none
      else
        let ex : Int := if eneg then -(digitsVal ed : Int) else (digitsVal ed : Int)
        some (.finite (mkRatVal neg ip fp ex))
    else none

/-- Decimal literal `digits [. digits] | . digits`, then exponent. -/
def readNumber (neg : Bool) (l : List Char) : Option PyFloat :=
  let ip := l.takeWhile isDig
  match l.dropWhile isDig with
  | [] => if ip.isEmpty then none else readExp neg ip [] []
  | c :: r2 =>
    if c = '.' then
      let fp := r2.takeWhile isDig
      let r3 := r2.dropWhile isDig
      if ip.isEmpty && fp.isEmpty then none else readExp neg ip fp r3
    else if ip.isEmpty then none else readExp neg ip [] (c :: r2)

/-- Python `float(str)` on a character list. -/
def pyFloatChars (l0 : List Char) : Option PyFloat :=
  let l1 := stripWS l0
  if !usOk none l1 then none
  else
    let l := l1.filter (fun c => c ≠ '_')
    let (neg, l2) := readSign l
    if kwIs l2 ['i', 'n', 'f'] || kwIs l2 ['i', 'n', 'f', 'i', 'n', 'i', 't', 'y'] then
      some (.inf neg)
    else if kwIs l2 ['n', 'a', 'n'] then some .nan
    else readNumber neg l2

/-- Python `float(str)`. -/
def pyFloat (s : String) : Option PyFloat := pyFloatChars s.data

/-- The two `str.replace` calls of `parse_amount`: drop every `'.'`,
then turn every `','` into `'.'`. -/
def substAmount (s : String) : String :=
  ⟨(s.data.filter (fun c => c ≠ '.')).map (fun c => if c = ',' then '.' else c)⟩

/-- `PDFTransactionParser.parse_amount`. -/
def parse_amount (s : String) : Option PyFloat := pyFloat (substAmount s)

/-! ## A backtracking regex engine (Python `re` semantics)

Just enough of Python's `re` for the registry's two compiled patterns
and the joined keyword pattern of `DataLoader.load`: character classes,
concatenation, ordered alternation, capture groups, and greedy/lazy
counted repetition.  Backtracking explores alternatives in Python's
order (left alternative first; greedy repetition body-first, lazy
repetition continuation-first), so the first success is Python's match.
`re.DOTALL` is immaterial here: neither pattern contains an unescaped
`.` (the description class is the explicit `[\s\S]`).  The matcher
recurses on an explicit fuel so that it evaluates inside the kernel;
every entry point supplies fuel that is provably sufficient. -/

/-- Regex abstract syntax. -/
inductive RE where
  | eps
  | cls (p : Char → Bool)
  | seq (a b : RE)
  | alt (a b : RE)
  | grp (i : Nat) (a : RE)
  | rep (greedy : Bool) (lo : Nat) (hi : Option Nat) (a : RE)

/-- Structural size, used to bound the fuel a repetition-free pattern
needs. -/
def reSize : RE → Nat
  | .eps => 1
  | .cls _ => 1
  | .seq a b => reSize a + reSize b + 1
  | .alt a b => reSize a + reSize b + 1
  | .grp _ a => reSize a + 1
  | .rep _ _ _ a => reSize a + 1

/-- Captured groups: latest binding of an index wins, matching Python's
last-match rule. -/
abbrev Caps := List (Nat × List Char)

/-- Text of group `i`, `""` when the group never matched. -/
def capGet (caps : Caps) (i : Nat) : List Char :=
  match caps.find? (fun p => p.1 = i) with
  | some p => p.2
  | none => []

/-- The backtracking matcher.  `k` is the continuation for the rest of
the pattern; the result carries the remaining input and the captures of
the first (Python-order) overall success. -/
def mm : Nat → RE → List Char → Caps →
    (List Char → Caps → Option (List Char × Caps)) → Option (List Char × Caps)
  | 0, _, _, _, _ => none
  | _ + 1, .eps, s, c, k => k s c
  | _ + 1, .cls p, s, c, k =>
    match s with
    | [] => none
    | ch :: r => if p ch then k r c else none
  | f + 1, .seq a b, s, c, k => mm f a s c (fun s1 c1 => mm f b s1 c1 k)
  | f + 1, .alt a b, s, c, k =>
    match mm f a s c k with
    | some r => some r
    | none => mm f b s c k
  | f + 1, .grp i a, s, c, k =>
    mm f a s c (fun s1 c1 => k s1 ((i, s.take (s.length - s1.length)) :: c1))
  | f + 1, .rep g lo hi a, s, c, k =>
    if lo > 0 then
      mm f a s c (fun s1 c1 => mm f (.rep g (lo - 1) (hi.map (· - 1)) a) s1 c1 k)
    else
      match hi with
      | some 0 => k s c
      | _ =>
        if g then
          match mm f a s c
              (fun s1 c1 => mm f (.rep g 0 (hi.map (· - 1)) a) s1 c1 k) with
          | some r => some r
          | none => k s c
        else
          match k s c with
          | some r => some r
          | none => mm f a s c
              (fun s1 c1 => mm f (.rep g 0 (hi.map (· - 1)) a) s1 c1 k)

/-- Fuel sufficient for one match attempt of `re` against `l`:
the matcher loses one fuel per pattern node entered, and each
repetition re-entry is paid for by consumed input. -/
def mmFuel (re : RE) (l : List Char) : Nat :=
  4 * l.length + 4 * reSize re + 1000

/-- One anchored match attempt at the start of `l`. -/
def tryMatch (re : RE) (l : List Char) : Option (List Char × Caps) :=
  mm (mmFuel re l) re l [] (fun s c => some (s, c))

/-- `pattern.findall(text)`: scan left to right, emit each leftmost
match's capture tuple, continue after its end (empty matches advance by
one character). -/
def findallAux (re : RE) : Nat → List Char → List Caps
  | 0, _ => []
  | f + 1, s =>
    match tryMatch re s with
    | some (rest, caps) =>
      if rest.length = s.length then
        caps :: (match s with | [] => [] | _ :: t => findallAux re f t)
      else caps :: findallAux re f rest
    | none =>
      match s with
      | [] => []
      | _ :: t => findallAux re f t

/-- `pattern.findall(text)`. -/
def findall (re : RE) (s : String) : List Caps :=
  findallAux re (s.data.length + 1) s.data

/-- Does `re` match starting exactly at `l`? -/
def matchHere (re : RE) (l : List Char) : Bool :=
  (tryMatch re l).isSome

/-- `re.search` as a boolean: does `re` match at any position? -/
def searchAux (re : RE) : List Char → Bool
  | [] => matchHere re []
  | l@(_ :: t) => matchHere re l || searchAux re t

/-- `bool(re.search(pattern, s))`, the truth value used by
`Series.str.contains`. -/
def reSearch (re : RE) (s : String) : Bool := searchAux re s.data

/-! ### Pattern-building helpers -/

/-- Literal character. -/
def rch (c : Char) : RE := .cls (fun x => x = c)

/-- Concatenation of a list of patterns. -/
def rcat (l : List RE) : RE := l.foldr .seq .eps

/-- Literal string. -/
def rlit (s : String) : RE := rcat (s.data.map rch)

/-- `\d` (ASCII fragment). -/
def rdigit : RE := .cls isDig

/-- `[A-Z0-9]`. -/
def rupnum : RE := .cls (fun c => ('A' ≤ c && c ≤ 'Z') || isDig c)

/-- `x+` (greedy). -/
def rplus (a : RE) : RE := .rep true 1 none a

/-- `x?` (greedy). -/
def ropt (a : RE) : RE := .rep true 0 (some 1) a

/-- `x*` (greedy). -/
def rstar (a : RE) : RE := .rep true 0 none a

/-- `x{n}`. -/
def rexact (n : Nat) (a : RE) : RE := .rep true n (some n) a

/-- `\r?\n`. -/
def rcrlf : RE := .seq (ropt (rch '\x0d')) (rch '\n')

/-- `[A-Za-z]`. -/
def rAlpha : RE := .cls (fun c => ('A' ≤ c && c ≤ 'Z') || ('a' ≤ c && c ≤ 'z'))

/-- `[\s\S]`: any character, independent of `DOTALL`. -/
def rAny : RE := .cls (fun _ => true)

/-- `\s` (ASCII fragment). -/
def rws : RE := .cls isPyWS

/-- `\d{2}\.\d{2}\.\d{4}`, the raw date shape shared by both groups. -/
def rdate : RE :=
  rcat [rexact 2 rdigit, rch '.', rexact 2 rdigit, rch '.', rexact 4 rdigit]

/-- `-?\d{1,3}(?:\.\d{3})*,\d{2}`, the amount token. -/
def rAmount : RE :=
  rcat [ropt (rch '-'), .rep true 1 (some 3) rdigit,
    rstar (.seq (rch '.') (rexact 3 rdigit)), rch ',', rexact 2 rdigit]

/-- `(?:[A-Z0-9]+/\d+ ?)+`, the code-block shape shared by both
patterns. -/
def rcodes : RE := rplus (rcat [rplus rupnum, rch '/', rplus rdigit, ropt (rch ' ')])

/-! ## `transaction_types.py` and `transaction_patterns.py` -/

/-- `TransactionType` enumeration. -/
inductive TransactionType where
  | DIRECT_DEBIT
  | CARD_TRANSACTION
  | TRANSFER
deriving DecidableEq, Repr

/-- The native-language label each enum member carries. -/
def transactionLabel : TransactionType → String
  | .DIRECT_DEBIT => "Lastschrift"
  | .CARD_TRANSACTION => "Kartenverfügung"
  | .TRANSFER => "Übertrag"

/-- The `TRANSACTION_PATTERNS[TransactionType.DIRECT_DEBIT][0]` regex,
transcribed group by group. -/
def ddPattern : RE := rcat [
  .grp 1 rdate, rcrlf,
  .grp 2 rdate, rlit "Lastschrift /", rcrlf, rlit "Belastung", rcrlf,
  .grp 3 (rplus rupnum), rcrlf,
  .grp 4 rcodes,
  .grp 5 (.seq rAlpha (.rep false 0 none rAny)),
  .grp 6 rAmount]

/-- The `TRANSACTION_PATTERNS[TransactionType.TRANSFER][0]` regex. -/
def trPattern : RE := rcat [
  .grp 1 rdate, rch '\n',
  .grp 2 rdate, rlit "Übertrag /", rch '\n', rlit "Überweisung", rch '\n',
  .grp 3 (rplus rupnum), rch '\n',
  .grp 4 rcodes,
  .grp 5 (.seq (rstar rws) (.rep false 1 none rAny)),
  rch '\n', rlit "Gläubiger-ID:", rch '\n',
  rlit "DE", rexact 2 rdigit, rlit "ZZZ", rexact 11 rdigit,
  .grp 6 rAmount]

/-- `TRANSACTION_PATTERNS`: insertion-ordered dict from type to its
pattern list (no entry for `CARD_TRANSACTION`). -/
def TRANSACTION_PATTERNS : List (TransactionType × List RE) :=
  [(.DIRECT_DEBIT, [ddPattern]), (.TRANSFER, [trPattern])]

/-- `TRANSACTION_PATTERNS.get(t, [])`. -/
def patternsGet (t : TransactionType) : List RE :=
  match TRANSACTION_PATTERNS.find? (fun p => p.1 = t) with
  | some p => p.2
  | none => []

/-! ## `PDFTransactionParser.parse_pdf` -/

/-- Is `l1` a leading segment of `l2`? -/
def prefixB : List Char → List Char → Bool
  | [], _ => true
  | _ :: _, [] => false
  | a :: as, b :: bs => a = b && prefixB as bs

/-- Case-sensitive literal substring containment. -/
def occursB : List Char → List Char → Bool
  | k, [] => prefixB k []
  | k, s@(_ :: t) => prefixB k s || occursB k t

/-- Literal substring containment on strings. -/
def strOccurs (k s : String) : Bool := occursB k.data s.data

/-- `s.startswith(p)` on strings. -/
def strStarts (p s : String) : Bool := prefixB p.data s.data

/-- Python `str.strip()` (ASCII whitespace fragment). -/
def pyStrip (s : String) : String := ⟨stripWS s.data⟩

/-- The canonical output unit: one row of the transactions DataFrame. -/
structure TransactionRecord where
  booking_date : Option Date
  value_date : Option Date
  transaction_id : String
  code : String
  description : String
  amount : Option PyFloat
deriving DecidableEq, Repr

/-- The dict appended for one regex match: positional groups
`(booking_date, value_date, transaction_id, code, description, amount)`
with the two dates and the amount normalized and the description
stripped. -/
def buildRecord (m : Caps) : TransactionRecord where
  booking_date := parse_date ⟨capGet m 1⟩
  value_date := parse_date ⟨capGet m 2⟩
  transaction_id := ⟨capGet m 3⟩
  code := ⟨capGet m 4⟩
  description := pyStrip ⟨capGet m 5⟩
  amount := parse_amount ⟨capGet m 6⟩

/-- `pattern_items`: the patterns of the requested type, or the whole
registry in declaration order when no filter is given. -/
def pattern_items (t : Option TransactionType) : List (TransactionType × RE) :=
  match t with
  | some ty => (patternsGet ty).map (fun p => (ty, p))
  | none => TRANSACTION_PATTERNS.flatMap (fun it => it.2.map (fun p => (it.1, p)))

/-- All matches of the selected patterns on one page's text, in
registry order and match order. -/
def pageMatches (t : Option TransactionType) (text : String) : List Caps :=
  (pattern_items t).flatMap (fun it => findall it.2 text)

/-- The records one page with extractable text contributes. -/
def pageRecords (t : Option TransactionType) (text : String) : List TransactionRecord :=
  (pageMatches t text).map buildRecord

/-- A logged page warning: `Page {page_index + 1} in {basename} has no
extractable text.` -/
structure Diag where
  doc : String
  page : Nat
deriving DecidableEq, Repr

/-- A source document at the parser's interface: its base name and the
outcome of `PdfReader` + per-page `extract_text()` (`none` models an
absent text, `Except.error` a document that cannot be opened). -/
structure PdfDoc where
  name : String
  read : Except String (List (Option String))

/-- The page loop of `parse_pdf`: empty or absent text yields a warning
and no records, otherwise the page's matches are appended. -/
def parsePages (t : Option TransactionType) (docname : String) :
    Nat → List (Option String) → List TransactionRecord × List Diag
  | _, [] => ([], [])
  | i, ptext :: rest =>
    let tl := parsePages t docname (i + 1) rest
    match ptext with
    | none => (tl.1, ⟨docname, i + 1⟩ :: tl.2)
    | some txt =>
      if txt = "" then (tl.1, ⟨docname, i + 1⟩ :: tl.2)
      else (pageRecords t txt ++ tl.1, tl.2)

/-- `parse_pdf`: records and page diagnostics of one document, or the
propagated reader exception.  `transaction_type` defaults to
`DIRECT_DEBIT`. -/
def parse_pdf (doc : PdfDoc)
    (transaction_type : Option TransactionType := some .DIRECT_DEBIT) :
    Except String (List TransactionRecord × List Diag) :=
  doc.read.map (parsePages transaction_type doc.name 0)

/-! ## `PDFTransactionParser.parse_pdfs` -/

/-- ASCII `str.lower`. -/
def asciiLowerStr (s : String) : String := ⟨s.data.map asciiLower⟩

/-- `s.endswith(suf)` on strings. -/
def strEnds (s suf : String) : Bool := prefixB suf.data.reverse s.data.reverse

/-- `filename.lower().endswith(".pdf")`. -/
def isPdfName (name : String) : Bool := strEnds (asciiLowerStr name) ".pdf"

/-- The document loop of `parse_pdfs` before the sort: concatenated
records of every `.pdf` file in listing order.  There is no exception
handling around `parse_pdf`, so the first unreadable document's error
propagates and aborts the loop. -/
def parse_pdfsRecords (docs : List PdfDoc)
    (transaction_type : Option TransactionType := some .DIRECT_DEBIT) :
    Except String (List TransactionRecord) :=
  match docs with
  | [] => .ok []
  | d :: rest =>
    if isPdfName d.name then
      match parse_pdf d transaction_type with
      | .error e => .error e
      | .ok out => (parse_pdfsRecords rest transaction_type).map (out.1 ++ ·)
    else parse_pdfsRecords rest transaction_type

/-- Missing-date-last comparison realized by
`sort_values(by="Booking Date")`: pandas places rows whose key is
missing after all present keys (`na_position='last'`) and orders
present keys ascending. -/
def bookingLe (a b : TransactionRecord) : Prop :=
  match a.booking_date, b.booking_date with
  | some x, some y => dateLe x y
  | some _, none => True
  | none, none => True
  | none, some _ => False

instance (a b : TransactionRecord) : Decidable (bookingLe a b) := by
  unfold bookingLe; exact match a.booking_date, b.booking_date with
    | some _, some _ => inferInstance
    | some _, none => inferInstance
    | none, none => inferInstance
    | none, some _ => inferInstance

/-- Postcondition of `self.transactions.sort_values(by=COL_BOOKING_DATE,
inplace=True)`: the result is a permutation of the input, pairwise
ordered by booking date with missing dates last.  The default
`kind='quicksort'` guarantees nothing further — in particular not
stability. -/
def SortValuesByBooking (inp out : List TransactionRecord) : Prop :=
  inp.Perm out ∧ out.Pairwise bookingLe

/-- A completed `parse_pdfs` run: the concatenation succeeded and the
returned dataset is a pandas sort of it. -/
def ParsePdfsRun (docs : List PdfDoc) (t : Option TransactionType)
    (out : List TransactionRecord) : Prop :=
  ∃ recs, parse_pdfsRecords docs t = .ok recs ∧ SortValuesByBooking recs out

/-! ## `DataLoader.load` (`data_handler/data_loader.py`)

The loader reads the persisted CSV back, then — when `keywords` is a
non-empty list — keeps the rows whose `Description` matches
`"|".join(keywords)` under `Series.str.contains`, whose default is
`regex=True`: the joined keywords are one regular expression, not
literal substrings.  Rows with a missing description are dropped by
`na=False`.  The keyword compiler below covers keyword characters whose
only regex metacharacter is `.` (every keyword any claim exercises);
all other characters stand for themselves. -/

/-- One CSV row at the loader's interface: the description cell
(missing = `NaN`) plus the remaining row content, opaque here. -/
structure CsvRow where
  descr : Option String
  rest : String
deriving DecidableEq, Repr

/-- Compile one keyword, `.` meaning any character. -/
def compileKW (k : String) : RE :=
  rcat (k.data.map (fun c => if c = '.' then rAny else rch c))

/-- Compile `"|".join(keywords)`: left-to-right alternation. -/
def compileJoined : List String → RE
  | [] => .cls (fun _ => false)
  | [k] => compileKW k
  | k :: rest => .alt (compileKW k) (compileJoined rest)

/-- `DataLoader.load`'s filtering step. -/
def loadFilter (keywords : List String) (rows : List CsvRow) : List CsvRow :=
  if keywords.isEmpty then rows
  else
    rows.filter (fun r =>
      match r.descr with
      | none => false
      | some s => reSearch (compileJoined keywords) s)

/-! ## numpy's introsort on equal keys

`sort_values` without `kind` uses numpy's `argsort(kind='quicksort')`
(introsort).  For a slice longer than its insertion-sort threshold of
16 the partition step swaps the middle entry to the end and then
exchanges pairs walking inward; on all-equal keys every comparison
`LT` is false, so the control flow below is the algorithm's exact
trace, a fixed permutation of the indices. -/

/-- Exchange positions `i` and `j`. -/
def idxSwap (a : List Nat) (i j : Nat) : List Nat :=
  (a.set i (a.getD j 0)).set j (a.getD i 0)

/-- The partition scan with all comparisons false: advance both
pointers once per round, exchanging while they have not crossed;
returns the final `pi`. -/
def npScan : Nat → List Nat → Nat → Nat → List Nat × Nat
  | 0, a, pi, _ => (a, pi + 1)
  | fuel + 1, a, pi, pj =>
    let pi1 := pi + 1
    let pj1 := pj - 1
    if pi1 ≥ pj1 then (a, pi1) else npScan fuel (idxSwap a pi1 pj1) pi1 pj1

/-- numpy `aquicksort` on an all-equal slice `[pl, pr]` (inclusive):
partitions of more than 16 elements run the quicksort step, smaller
ones fall through to insertion sort, which moves nothing when every
comparison is false. -/
def npQS : Nat → List Nat → Nat → Nat → List Nat
  | 0, a, _, _ => a
  | fuel + 1, a, pl, pr =>
    if pr - pl > 15 then
      let pm := pl + (pr - pl) / 2
      let a1 := idxSwap a pm (pr - 1)
      let sc := npScan pr a1 pl (pr - 1)
      let a3 := idxSwap sc.1 sc.2 (pr - 1)
      npQS fuel (npQS fuel a3 pl (sc.2 - 1)) (sc.2 + 1) pr
    else a

/-- `np.argsort(kind='quicksort')` of `n` pairwise-equal keys. -/
def npArgsortEqualKeys (n : Nat) : List Nat :=
  npQS n (List.range n) 0 (n - 1)

/-! ## Fixtures

`SAMPLE_TEXT` is the `SAMPLE_TEXT` of
`tests/finflow/statement_parsing/test_transaction_patterns.py`; the
remaining fixtures are small synthetic documents at the parser's
interface. -/

def SAMPLE_TEXT : String :=
  "04.12.2024\n04.12.2024Lastschrift /\nBelastung\n7L2C1U7N2KRV\n5LYN/35742D.T.NET Service OHG 402505/129801/EUR 48.40\nEnd-to-End-Ref.:\n150808\nCORE /Mandatsref.:\n402505\nGläubiger-ID:\nDE92ZZZ00000085710-48,40\n"

/-- The description text the DirectDebit pattern captures from
`SAMPLE_TEXT` (lazy up to the amount token `-48,40`). -/
def SAMPLE_DESCR : String :=
  "D.T.NET Service OHG 402505/129801/EUR 48.40\nEnd-to-End-Ref.:\n150808\nCORE /Mandatsref.:\n402505\nGläubiger-ID:\nDE92ZZZ00000085710"

/-- A page holding two DirectDebit blocks with out-of-order dates. -/
def twoTxText : String :=
  "05.12.2024\n05.12.2024Lastschrift /\nBelastung\nID1\nAB/1 X-1,00\n04.12.2024\n04.12.2024Lastschrift /\nBelastung\nID2\nCD/2 Y-2,00"

/-- The record of `twoTxText`'s first block. -/
def recDec5 : TransactionRecord :=
  ⟨some ⟨2024, 12, 5⟩, some ⟨2024, 12, 5⟩, "ID1", "AB/1 ", "X",
    some (.finite (mkRat (-100) 100))⟩

/-- The record of `twoTxText`'s second block. -/
def recDec4 : TransactionRecord :=
  ⟨some ⟨2024, 12, 4⟩, some ⟨2024, 12, 4⟩, "ID2", "CD/2 ", "Y",
    some (.finite (mkRat (-200) 100))⟩

/-- A readable one-page document holding the sample text. -/
def goodDoc : PdfDoc := ⟨"good.pdf", .ok [some SAMPLE_TEXT]⟩

/-- A document whose `PdfReader` call raises. -/
def badDoc : PdfDoc := ⟨"bad.pdf", .error "EmptyFileError"⟩

/-- A second readable document. -/
def twoTxDoc : PdfDoc := ⟨"two.pdf", .ok [some twoTxText]⟩

/-- A literal character chain, the compilation of a metacharacter-free
keyword. -/
def litRE (l : List Char) : RE := rcat (l.map rch)

/-- Python regex metacharacters (outside character classes). -/
def regexMeta (c : Char) : Bool :=
  c = '.' || c = '^' || c = '$' || c = '*' || c = '+' || c = '?' ||
  c = '{' || c = '}' || c = '[' || c = ']' || c = '\\' || c = '|' ||
  c = '(' || c = ')'

/-- A CSV row whose description is `axb`. -/
def rowAxb : CsvRow := ⟨some "axb", "r0"⟩

/-- Value of a little-endian-folded digit list (most significant
first). -/
def digitsValN (ds : List Nat) : Nat := ds.foldl (fun a d => 10 * a + d) 0

/-- A raw amount string of the claim's shape
`-?\d{1,3}(\.\d{3})*,\d{2}`, rendered from its digit content: optional
sign, one to three leading digits, dot-separated three-digit groups,
comma, two cent digits. -/
def renderAmount (neg : Bool) (lead : List Nat) (groups : List (List Nat))
    (cents : List Nat) : String :=
  ⟨(if neg then ['-'] else []) ++ lead.map digCh ++
    groups.flatMap (fun g => '.' :: g.map digCh) ++ ',' :: cents.map digCh⟩

/-- The signed decimal such a string denotes. -/
def amountVal (neg : Bool) (lead : List Nat) (groups : List (List Nat))
    (cents : List Nat) : ℚ :=
  let n : Nat := digitsValN (lead ++ groups.flatten) * 100 + digitsValN cents
  mkRat (if neg then -(n : Int) else (n : Int)) 100

/-- The day tokens `%d` accepts for value `d`: the two-character
alternatives cover `01`–`31`, the bare one-digit form `1`–`9`. -/
def DayRendering (d : Nat) (l : List Char) : Prop :=
  (10 ≤ d ∧ d ≤ 31 ∧ l = twoD d) ∨ (1 ≤ d ∧ d ≤ 9 ∧ (l = twoD d ∨ l = oneD d))

/-- The month tokens `%m` accepts for value `m`. -/
def MonRendering (m : Nat) (l : List Char) : Prop :=
  (10 ≤ m ∧ m ≤ 12 ∧ l = twoD m) ∨ (1 ≤ m ∧ m ≤ 9 ∧ (l = twoD m ∨ l = oneD m))

/-- A string `strptime("%d.%m.%Y")` can tokenize with values
`(y, m, d)`: day token, dot, month token, dot, exactly four year
digits, end of input. -/
def DateShape (s : String) (y m d : Nat) : Prop :=
  ∃ ld lm, DayRendering d ld ∧ MonRendering m lm ∧ y ≤ 9999 ∧
    s.data = ld ++ ('.' :: (lm ++ ('.' :: fourD y)))

set_option maxRecDepth 100000

/-! # Claim theorems -/

/-- C1: every match produced by an extraction pattern on a page is
appended to the output as exactly one `TransactionRecord` — the page
output is the one-to-one image of the match list, so no record is
dropped when a date or amount fails to normalize: the failing field is
the (possibly `none`) normalization result while `transaction_id`,
`code` and the stripped `description` keep the raw captures. -/
theorem every_match_appended :
    (∀ t text, pageRecords t text = (pageMatches t text).map buildRecord) ∧
    (∀ ms : List Caps, (ms.map buildRecord).length = ms.length) ∧
    (∀ t text m, m ∈ pageMatches t text → buildRecord m ∈ pageRecords t text) ∧
    (∀ m : Caps,
      (buildRecord m).booking_date = parse_date ⟨capGet m 1⟩ ∧
      (buildRecord m).value_date = parse_date ⟨capGet m 2⟩ ∧
      (buildRecord m).transaction_id = ⟨capGet m 3⟩ ∧
      (buildRecord m).code = ⟨capGet m 4⟩ ∧
      (buildRecord m).description = pyStrip ⟨capGet m 5⟩ ∧
      (buildRecord m).amount = parse_amount ⟨capGet m 6⟩) :=
  ⟨fun _ _ => rfl, fun ms => ms.length_map buildRecord,
    fun _ _ _ hm => List.mem_map_of_mem buildRecord hm,
    fun _ => ⟨rfl, rfl, rfl, rfl, rfl, rfl⟩⟩

/-- Witness for C1 at the sample page: its one match's record is in the
page output. -/
theorem every_match_appended_witness :
    buildRecord ((pageMatches (some .DIRECT_DEBIT) SAMPLE_TEXT).headD []) ∈
      pageRecords (some .DIRECT_DEBIT) SAMPLE_TEXT :=
  every_match_appended.2.2.1 (some .DIRECT_DEBIT) SAMPLE_TEXT _ (by decide)

/-- C8: on the fixed sample page text the DirectDebit page extraction
yields exactly one record with booking and value date 2024-12-04,
transaction id `7L2C1U7N2KRV`, code `5LYN/35742`, description starting
with `D.T.NET Service`, and amount `-48.40`. -/
theorem sample_page_single_record :
    pageRecords (some .DIRECT_DEBIT) SAMPLE_TEXT =
      [⟨some ⟨2024, 12, 4⟩, some ⟨2024, 12, 4⟩, "7L2C1U7N2KRV", "5LYN/35742",
        SAMPLE_DESCR, some (.finite (mkRat (-4840) 100))⟩] ∧
    strStarts "D.T.NET Service" SAMPLE_DESCR = true := by
  exact ⟨by decide, by decide⟩

/-- C10: omitting `transaction_type` selects `DIRECT_DEBIT` — the
default call equals the explicit `DIRECT_DEBIT` call for both
`parse_pdf` and `parse_pdfs`, a `some`-filter selects exactly that
type's registry entry, and only the explicit `None` selects the whole
registry (for every type the filtered pattern set differs from the full
one). -/
theorem default_filter_is_direct_debit :
    (∀ doc : PdfDoc, parse_pdf doc = parse_pdf doc (some .DIRECT_DEBIT)) ∧
    (∀ docs : List PdfDoc,
      parse_pdfsRecords docs = parse_pdfsRecords docs (some .DIRECT_DEBIT)) ∧
    (∀ ty, pattern_items (some ty) = (patternsGet ty).map (fun p => (ty, p))) ∧
    pattern_items none =
      TRANSACTION_PATTERNS.flatMap (fun it => it.2.map (fun p => (it.1, p))) ∧
    (∀ ty, (pattern_items (some ty)).length ≠ (pattern_items none).length) := by
  refine ⟨fun _ => rfl, fun _ => rfl, fun ty => rfl, rfl, fun ty => ?_⟩
  cases ty <;> decide

/-- C6 counterexample: with an unreadable first document and a readable
second one, `parse_pdfs` does not continue with the remaining
documents — the reader error propagates and no dataset is produced. -/
theorem unreadable_doc_aborts_batch :
    parse_pdfsRecords [badDoc, goodDoc] (some .DIRECT_DEBIT) =
      .error "EmptyFileError" := rfl

/-- C6 amended: a document read error is surfaced loudly — the first
unreadable `.pdf` document's error propagates out of `parse_pdfs`
unchanged, aborting the batch, and no later document is extracted. -/
theorem unreadable_doc_error_propagates :
    ∀ (pre post : List PdfDoc) (bad : PdfDoc) (t : Option TransactionType)
      (e : String),
      (∀ d ∈ pre, ∃ pages, d.read = .ok pages) →
      isPdfName bad.name = true → bad.read = .error e →
      parse_pdfsRecords (pre ++ bad :: post) t = .error e := by
  intro pre
  induction pre with
  | nil =>
    intro post bad t e _ hbad hread
    simp only [List.nil_append, parse_pdfsRecords, hbad, if_true, parse_pdf, hread,
      Except.map]
  | cons d pre ih =>
    intro post bad t e hok hbad hread
    obtain ⟨pages, hpages⟩ := hok d (List.mem_cons_self d pre)
    have hrest := ih post bad t e (fun x hx => hok x (List.mem_cons_of_mem d hx))
      hbad hread
    by_cases hname : isPdfName d.name
    · simp [parse_pdfsRecords, hname, parse_pdf, hpages, Except.map, hrest]
    · simp [parse_pdfsRecords, hname, hrest]

/-- Witness for C6 amended: the batch `[good.pdf, bad.pdf]` ends in the
bad document's error. -/
theorem unreadable_doc_error_propagates_witness :
    parse_pdfsRecords [goodDoc, badDoc] (some .DIRECT_DEBIT) =
      .error "EmptyFileError" :=
  unreadable_doc_error_propagates [goodDoc] [] badDoc (some .DIRECT_DEBIT)
    "EmptyFileError"
    (by intro d hd
        have : d = goodDoc := by simpa using hd
        exact ⟨[some SAMPLE_TEXT], by rw [this]; rfl⟩)
    rfl rfl

/-- C2: in the dataset a completed `parse_pdfs` run returns, any record
preceding another — both with a present booking date — has the earlier
(or equal) booking date: missing dates are placed last, present dates
ascend. -/
theorem dataset_sorted_by_booking :
    ∀ (docs : List PdfDoc) (t : Option TransactionType)
      (out : List TransactionRecord),
      ParsePdfsRun docs t out →
      ∀ (i j : Fin out.length), i < j →
      ∀ a b, (out.get i).booking_date = some a →
        (out.get j).booking_date = some b →
      dateLe a b := by
  intro docs t out hrun i j hij a b ha hb
  obtain ⟨recs, -, -, hpw⟩ := hrun
  have h := List.pairwise_iff_get.mp hpw i j hij
  simp only [bookingLe, ha, hb] at h
  exact h

/-- Witness for C2: the two-transaction document arrives `[Dec 5, Dec 4]`
and a sorted output `[Dec 4, Dec 5]` satisfies the conclusion. -/
theorem dataset_sorted_by_booking_witness :
    dateLe ⟨2024, 12, 4⟩ ⟨2024, 12, 5⟩ :=
  dataset_sorted_by_booking [twoTxDoc] (some .DIRECT_DEBIT) [recDec4, recDec5]
    ⟨[recDec5, recDec4], rfl, List.Perm.swap recDec4 recDec5 [], by decide⟩
    ⟨0, by decide⟩ ⟨1, by decide⟩ (by decide) ⟨2024, 12, 4⟩ ⟨2024, 12, 5⟩ rfl rfl

/-- C7: a page with empty or absent text contributes zero records and
exactly one diagnostic carrying the document name and the 1-based page
index; the records of every other page are unchanged. -/
theorem empty_page_zero_records_one_diag :
    ∀ (t : Option TransactionType) (name : String) (i : Nat)
      (pre post : List (Option String)) (pg : Option String),
      pg = none ∨ pg = some "" →
      parsePages t name i (pre ++ pg :: post) =
        ((parsePages t name i pre).1 ++
            (parsePages t name (i + pre.length + 1) post).1,
          (parsePages t name i pre).2 ++
            ⟨name, i + pre.length + 1⟩ ::
              (parsePages t name (i + pre.length + 1) post).2) := by
  intro t name i pre post pg hpg
  induction pre generalizing i with
  | nil =>
    rcases hpg with h | h <;> subst h <;> simp [parsePages]
  | cons q pre ih =>
    have hstep := ih (i + 1)
    have hidx : i + 1 + pre.length + 1 = i + (pre.length + 1) + 1 := by omega
    rcases q with _ | txt
    · simp only [List.cons_append, parsePages, List.append_eq, hstep, hidx,
        List.length_cons]
    · by_cases he : txt = ""
      · subst he
        simp only [List.cons_append, parsePages, List.append_eq, hstep, hidx,
          List.length_cons, if_true]
      · simp only [List.cons_append, parsePages, List.append_eq, hstep, hidx,
          List.length_cons, if_neg he, List.append_assoc]

/-- Witness for C7 at a one-page document whose page has no text. -/
theorem empty_page_zero_records_one_diag_witness :
    parsePages (some .DIRECT_DEBIT) "good.pdf" 0 ([] ++ none :: []) =
      ((parsePages (some .DIRECT_DEBIT) "good.pdf" 0 []).1 ++
          (parsePages (some .DIRECT_DEBIT) "good.pdf" 1 []).1,
        (parsePages (some .DIRECT_DEBIT) "good.pdf" 0 []).2 ++
          ⟨"good.pdf", 1⟩ :: (parsePages (some .DIRECT_DEBIT) "good.pdf" 1 []).2) :=
  empty_page_zero_records_one_diag (some .DIRECT_DEBIT) "good.pdf" 0 [] [] none
    (Or.inl rfl)

/-! ### Engine lemmas for keyword filtering (C9) -/

theorem reSize_litRE (l : List Char) : reSize (litRE l) = 2 * l.length + 1 := by
  induction l with
  | nil => rfl
  | cons c cs ih => simp [litRE, rcat, reSize, rch] at ih ⊢; omega

theorem mm_lit (l : List Char) :
    ∀ (f : Nat) (s : List Char) (c : Caps)
      (k : List Char → Caps → Option (List Char × Caps)),
      2 * l.length + 1 ≤ f →
      mm f (litRE l) s c k =
        if prefixB l s then k (s.drop l.length) c else none := by
  induction l with
  | nil =>
    intro f s c k hf
    obtain ⟨f1, rfl⟩ : ∃ f1, f = f1 + 1 := ⟨f - 1, by omega⟩
    simp [litRE, rcat, mm, prefixB]
  | cons ch cs ih =>
    intro f s c k hf
    obtain ⟨f2, rfl⟩ : ∃ f2, f = f2 + 1 + 1 := ⟨f - 2, by simp at hf; omega⟩
    show mm (f2 + 1) (rch ch) s c
      (fun s1 c1 => mm (f2 + 1) (litRE cs) s1 c1 k) = _
    match s with
    | [] => simp [rch, mm, prefixB]
    | b :: bs =>
      show (if (b = ch : Bool) then
          mm (f2 + 1) (litRE cs) bs c k else none) = _
      by_cases hb : b = ch
      · subst hb
        rw [ih (f2 + 1) bs c k (by simp at hf ⊢; omega)]
        simp [prefixB]
      · simp [prefixB, hb, Ne.symm hb]

theorem isSome_mm_lit (l s : List Char) (f : Nat) (hf : 2 * l.length + 1 ≤ f) :
    (mm f (litRE l) s [] (fun s1 c1 => some (s1, c1))).isSome = prefixB l s := by
  rw [mm_lit l f s [] _ hf]
  by_cases h : prefixB l s <;> simp [h]

/-- A metacharacter-free keyword compiles to its literal chain. -/
theorem compileKW_eq_litRE (k : String)
    (hk : ∀ c ∈ k.data, regexMeta c = false) : compileKW k = litRE k.data := by
  unfold compileKW litRE
  congr 1
  refine List.map_congr_left (fun c hc => ?_)
  have := hk c hc
  simp [regexMeta] at this
  simp [this.1]

theorem isSome_mm_joined (ks : List String)
    (hmeta : ∀ k ∈ ks, ∀ c ∈ k.data, regexMeta c = false) :
    ∀ (f : Nat) (s : List Char), reSize (compileJoined ks) ≤ f →
      (mm f (compileJoined ks) s [] (fun s1 c1 => some (s1, c1))).isSome =
        ks.any (fun k => prefixB k.data s) := by
  induction ks with
  | nil =>
    intro f s hf
    obtain ⟨f1, rfl⟩ : ∃ f1, f = f1 + 1 := ⟨f - 1, by simp [compileJoined, reSize] at hf; omega⟩
    match s with
    | [] => rfl
    | b :: bs => simp [compileJoined, mm]
  | cons k0 rest ih =>
    intro f s hf
    match rest with
    | [] =>
      have hk0 : compileJoined [k0] = litRE k0.data :=
        compileKW_eq_litRE k0 (hmeta k0 (by simp))
      rw [hk0] at hf ⊢
      rw [isSome_mm_lit k0.data s f (by rw [reSize_litRE] at hf; omega)]
      simp
    | r1 :: rs =>
      have hk0 : compileKW k0 = litRE k0.data :=
        compileKW_eq_litRE k0 (hmeta k0 (by simp))
      have hcj : compileJoined (k0 :: r1 :: rs) =
          .alt (compileKW k0) (compileJoined (r1 :: rs)) := rfl
      rw [hcj] at hf ⊢
      obtain ⟨f1, rfl⟩ : ∃ f1, f = f1 + 1 := ⟨f - 1, by simp [reSize] at hf; omega⟩
      have hbound : reSize (compileKW k0) + reSize (compileJoined (r1 :: rs)) + 1
          ≤ f1 + 1 := hf
      have h1 : (mm f1 (compileKW k0) s [] (fun s1 c1 => some (s1, c1))).isSome =
          prefixB k0.data s := by
        rw [hk0]
        refine isSome_mm_lit k0.data s f1 ?_
        have hsz := reSize_litRE k0.data
        rw [hk0] at hbound
        omega
      have h2 : (mm f1 (compileJoined (r1 :: rs)) s []
            (fun s1 c1 => some (s1, c1))).isSome =
          (r1 :: rs).any (fun k => prefixB k.data s) :=
        ih (fun k hk => hmeta k (List.mem_cons_of_mem _ hk)) f1 s (by omega)
      show (match mm f1 (compileKW k0) s [] (fun s1 c1 => some (s1, c1)) with
        | some r => some r
        | none => mm f1 (compileJoined (r1 :: rs)) s []
            (fun s1 c1 => some (s1, c1))).isSome = _
      rcases hopt : mm f1 (compileKW k0) s [] (fun s1 c1 => some (s1, c1)) with - | v
      · rw [hopt] at h1
        show (mm f1 (compileJoined (r1 :: rs)) s []
            (fun s1 c1 => some (s1, c1))).isSome = _
        rw [h2]
        have hp : prefixB k0.data s = false := by simpa using h1.symm
        simp [hp]
      · rw [hopt] at h1
        have hp : prefixB k0.data s = true := by simpa using h1.symm
        simp [hp]

theorem any_or_distrib {α : Type} (ks : List α) (p q : α → Bool) :
    ks.any (fun k => p k || q k) = (ks.any p || ks.any q) := by
  induction ks with
  | nil => rfl
  | cons k rest ihk =>
    simp [List.any_cons, ihk, Bool.or_assoc, Bool.or_comm, Bool.or_left_comm]

/-- `bool(re.search(joined, s))` for metacharacter-free keywords is the
disjunction of literal substring tests. -/
theorem reSearch_joined (ks : List String)
    (hmeta : ∀ k ∈ ks, ∀ c ∈ k.data, regexMeta c = false) (s : String) :
    reSearch (compileJoined ks) s = ks.any (fun k => strOccurs k s) := by
  show searchAux _ s.data = ks.any (fun k => occursB k.data s.data)
  induction s.data with
  | nil =>
    show matchHere _ [] = _
    unfold matchHere tryMatch
    rw [isSome_mm_joined ks hmeta _ [] (by unfold mmFuel; omega)]
    rfl
  | cons b bs ih =>
    show (matchHere _ (b :: bs) || searchAux _ bs) = _
    rw [ih]
    unfold matchHere tryMatch
    rw [isSome_mm_joined ks hmeta _ (b :: bs) (by unfold mmFuel; omega)]
    rw [← any_or_distrib]
    rfl

/-- C9 counterexample: the keyword `a.b` keeps the row described `axb`
although `a.b` is not a literal substring of `axb` — keywords are a
regular expression, not literal substrings. -/
theorem keyword_filter_not_literal :
    loadFilter ["a.b"] [rowAxb] = [rowAxb] ∧ strOccurs "a.b" "axb" = false :=
  ⟨by decide, by decide⟩

/-- C9 amended: for keywords free of regex metacharacters the loader
keeps exactly the rows whose description contains at least one keyword
as a case-sensitive literal substring (logical OR; rows with a missing
description are dropped), and with an empty keyword list every row is
kept; in general the joined keywords are interpreted as one regular
expression. -/
theorem load_filter_keywords :
    ∀ (ks : List String) (rows : List CsvRow),
      (∀ k ∈ ks, ∀ c ∈ k.data, regexMeta c = false) →
      loadFilter ks rows =
        if ks.isEmpty then rows
        else rows.filter (fun r =>
          match r.descr with
          | none => false
          | some s => ks.any (fun k => strOccurs k s)) := by
  intro ks rows hmeta
  unfold loadFilter
  by_cases hks : ks.isEmpty
  · simp [hks]
  · simp only [hks, if_false]
    refine List.filter_congr (fun r _ => ?_)
    rcases r.descr with - | s
    · rfl
    · exact reSearch_joined ks hmeta s

/-- Witness for C9 amended at the keyword `REWE`. -/
theorem load_filter_keywords_witness :
    loadFilter ["REWE"] [⟨some "REWE Markt", "p"⟩, ⟨none, "q"⟩, ⟨some "other", "r"⟩] =
      if (["REWE"] : List String).isEmpty then
        [⟨some "REWE Markt", "p"⟩, ⟨none, "q"⟩, ⟨some "other", "r"⟩]
      else
        [(⟨some "REWE Markt", "p"⟩ : CsvRow), ⟨none, "q"⟩, ⟨some "other", "r"⟩].filter
          (fun r =>
            match r.descr with
            | none => false
            | some s => (["REWE"] : List String).any (fun k => strOccurs k s)) :=
  load_filter_keywords ["REWE"] _ (by decide)

/-! ### Digit-shape lemmas for `parse_amount` (C4) -/

theorem digCh_props : ∀ d : Nat, d < 10 →
    isDig (digCh d) = true ∧ digCh d ≠ '.' ∧ digCh d ≠ ',' ∧ digCh d ≠ '_' ∧
    isPyWS (digCh d) = false ∧ digCh d ≠ '-' ∧ digCh d ≠ '+' ∧
    asciiLower (digCh d) ≠ 'i' ∧ asciiLower (digCh d) ≠ 'n' := by decide

theorem dval_digCh : ∀ d : Nat, d < 10 → dval (digCh d) = d := by decide

theorem digitsVal_map_digCh :
    ∀ (ds : List Nat), (∀ d ∈ ds, d < 10) → ∀ (a : Nat),
      (ds.map digCh).foldl (fun x c => 10 * x + dval c) a =
        ds.foldl (fun x d => 10 * x + d) a := by
  intro ds
  induction ds with
  | nil => intro _ _; rfl
  | cons d ds ih =>
    intro h a
    simp only [List.map_cons, List.foldl_cons,
      dval_digCh d (h d (List.mem_cons_self d ds))]
    exact ih (fun x hx => h x (List.mem_cons_of_mem d hx)) _

theorem usOk_of_no_underscore :
    ∀ (l : List Char), '_' ∉ l → ∀ (prev : Option Char), usOk prev l = true := by
  intro l
  induction l with
  | nil => intro _ prev; cases prev <;> rfl
  | cons c t ih =>
    intro h prev
    have hc : c ≠ '_' := fun he => h (he ▸ List.mem_cons_self c t)
    have ht : '_' ∉ t := fun he => h (List.mem_cons_of_mem c he)
    show usOk prev (c :: t) = true
    simp only [usOk, if_neg hc]
    exact ih ht (some c)

theorem dropWhile_of_takeWhile_nil {p : Char → Bool} :
    ∀ (l : List Char), l.takeWhile p = [] → l.dropWhile p = l := by
  intro l h
  cases l with
  | nil => rfl
  | cons c t =>
    rw [List.takeWhile_cons] at h
    rw [List.dropWhile_cons]
    rcases hp : p c with - | -
    · simp
    · rw [hp] at h; simp at h

theorem span_digits (ds : List Nat) (h : ∀ d ∈ ds, d < 10) (r : List Char)
    (hr : r.takeWhile isDig = []) :
    (ds.map digCh ++ r).takeWhile isDig = ds.map digCh ∧
    (ds.map digCh ++ r).dropWhile isDig = r := by
  induction ds with
  | nil => exact ⟨hr, dropWhile_of_takeWhile_nil r hr⟩
  | cons d ds ih =>
    have hd := (digCh_props d (h d (List.mem_cons_self d ds))).1
    have := ih (fun x hx => h x (List.mem_cons_of_mem d hx))
    simp only [List.map_cons, List.cons_append, List.takeWhile_cons,
      List.dropWhile_cons, hd, if_true]
    exact ⟨by rw [this.1], by rw [this.2]⟩

theorem kwIs_false_of_head (c : Char) (l : List Char) (k1 : Char)
    (krest : List Char) (h : asciiLower c ≠ k1) :
    kwIs (c :: l) (k1 :: krest) = false := by
  show ((c :: l).map asciiLower == k1 :: krest) = false
  refine beq_eq_false_iff_ne.mpr ?_
  intro he
  rw [List.map_cons] at he
  exact h (List.head_eq_of_cons_eq he)

theorem substAmount_render (neg : Bool) (lead : List Nat)
    (groups : List (List Nat)) (cents : List Nat)
    (hlead : ∀ d ∈ lead, d < 10)
    (hg : ∀ g ∈ groups, ∀ d ∈ g, d < 10)
    (hc : ∀ d ∈ cents, d < 10) :
    (substAmount (renderAmount neg lead groups cents)).data =
      (if neg then ['-'] else []) ++ (lead ++ groups.flatten).map digCh ++
        '.' :: cents.map digCh := by
  have hjoin : ∀ d ∈ groups.flatten, d < 10 := by
    intro d hd
    obtain ⟨g, hgm, hdg⟩ := List.mem_flatten.mp hd
    exact hg g hgm d hdg
  have hfsign : ((if neg then ['-'] else []).filter (fun c => c ≠ '.')) =
      (if neg then ['-'] else []) := by cases neg <;> decide
  have hfdig : ∀ (ds : List Nat), (∀ d ∈ ds, d < 10) →
      ((ds.map digCh).filter (fun c => c ≠ '.')) = ds.map digCh := by
    intro ds hds
    refine List.filter_eq_self.mpr (fun c hcm => ?_)
    obtain ⟨d, hd, rfl⟩ := List.mem_map.mp hcm
    simpa using (digCh_props d (hds d hd)).2.1
  have hfgroups : (groups.flatMap (fun g => '.' :: g.map digCh)).filter
      (fun c => c ≠ '.') = (groups.flatten).map digCh := by
    clear hjoin hlead hc
    induction groups with
    | nil => rfl
    | cons g gs ih =>
      have h1 := hfdig g (hg g (List.mem_cons_self g gs))
      simp only [List.flatMap_cons, List.flatten_cons, List.filter_append,
        List.filter_cons, List.map_append]
      rw [ih (fun x hx => hg x (List.mem_cons_of_mem g hx))]
      simp only [h1]
      simp
  have hmdig : ∀ (ds : List Nat), (∀ d ∈ ds, d < 10) →
      ((ds.map digCh).map (fun c => if c = ',' then '.' else c)) = ds.map digCh := by
    intro ds hds
    rw [List.map_map]
    refine List.map_congr_left (fun d hd => ?_)
    have := (digCh_props d (hds d hd)).2.2.1
    simp [Function.comp, this]
  have hsm : ((if neg then ['-'] else []).map (fun c => if c = ',' then '.' else c)) =
      (if neg then ['-'] else []) := by cases neg <;> decide
  show (((if neg then ['-'] else []) ++ lead.map digCh ++
      groups.flatMap (fun g => '.' :: g.map digCh) ++
      ',' :: cents.map digCh).filter (fun c => c ≠ '.')).map
        (fun c => if c = ',' then '.' else c) = _
  simp only [List.filter_append, hfsign, hfdig lead hlead, hfgroups,
    List.filter_cons]
  have h5 : (decide ((',' : Char) ≠ '.')) = true := by decide
  rw [h5]
  simp only [if_true, hfdig cents hc, List.map_append, hsm, hmdig lead hlead,
    hmdig groups.flatten hjoin, List.map_cons]
  rw [hmdig cents hc]
  simp [List.map_append, List.append_assoc]

theorem dropWhile_eq_self_of_all {p : Char → Bool} (l : List Char)
    (h : ∀ c ∈ l, p c = false) : l.dropWhile p = l := by
  cases l with
  | nil => rfl
  | cons c t => rw [List.dropWhile_cons, h c (List.mem_cons_self c t)]; simp

theorem stripWS_eq_self (l : List Char) (h : ∀ c ∈ l, isPyWS c = false) :
    stripWS l = l := by
  unfold stripWS
  rw [dropWhile_eq_self_of_all l h,
    dropWhile_eq_self_of_all l.reverse (fun c hc => h c (List.mem_reverse.mp hc))]
  exact List.reverse_reverse l

theorem isDig_dot : isDig '.' = false := by decide

/-- C4: `parse_amount` turns every raw string of the shape
`-?\d{1,3}(\.\d{3})*,\d{2}` into its signed decimal value (group
separators stripped, comma read as the decimal point), and whenever the
substituted string is not numeric for Python `float` it returns `none`
instead of raising. -/
theorem parse_amount_valid_shape :
    (∀ (neg : Bool) (lead : List Nat) (groups : List (List Nat))
        (cents : List Nat),
      1 ≤ lead.length → lead.length ≤ 3 → (∀ d ∈ lead, d < 10) →
      (∀ g ∈ groups, g.length = 3 ∧ ∀ d ∈ g, d < 10) →
      cents.length = 2 → (∀ d ∈ cents, d < 10) →
      parse_amount (renderAmount neg lead groups cents) =
        some (.finite (amountVal neg lead groups cents))) ∧
    (∀ s : String, pyFloat (substAmount s) = none → parse_amount s = none) := by
  constructor
  · intro neg lead groups cents hlen1 hlen3 hlead hgrp hclen hcents
    obtain ⟨d0, lead0, rfl⟩ : ∃ d0 lead0, lead = d0 :: lead0 := by
      cases lead with
      | nil => simp at hlen1
      | cons a l => exact ⟨a, l, rfl⟩
    have hg : ∀ g ∈ groups, ∀ d ∈ g, d < 10 := fun g hgm => (hgrp g hgm).2
    have hjoin : ∀ d ∈ groups.flatten, d < 10 := by
      intro d hd
      obtain ⟨g, hgm, hdg⟩ := List.mem_flatten.mp hd
      exact hg g hgm d hdg
    have hds : ∀ d ∈ (d0 :: lead0) ++ groups.flatten, d < 10 := by
      intro d hd
      rcases List.mem_append.mp hd with h | h
      · exact hlead d h
      · exact hjoin d h
    have hd0 : d0 < 10 := hlead d0 (List.mem_cons_self d0 lead0)
    set M : List Char :=
      ((d0 :: lead0) ++ groups.flatten).map digCh ++ '.' :: cents.map digCh
      with hM
    have hMcons : M = digCh d0 ::
        ((lead0 ++ groups.flatten).map digCh ++ '.' :: cents.map digCh) := by
      rw [hM]; simp
    have hdata2 : (substAmount (renderAmount neg (d0 :: lead0) groups cents)).data
        = (if neg then ['-'] else []) ++ M := by
      rw [substAmount_render neg (d0 :: lead0) groups cents hlead hg hcents, hM,
        List.append_assoc]
    have hchars : ∀ c ∈ (if neg then ['-'] else []) ++ M,
        isPyWS c = false ∧ c ≠ '_' := by
      intro c hcm
      rcases List.mem_append.mp hcm with h1 | h1
      · cases neg with
        | false => simp at h1
        | true =>
          simp at h1
          subst h1
          exact ⟨by decide, by decide⟩
      · rw [hM] at h1
        rcases List.mem_append.mp h1 with h2 | h2
        · obtain ⟨d, hd', rfl⟩ := List.mem_map.mp h2
          have hp := digCh_props d (hds d hd')
          exact ⟨hp.2.2.2.2.1, hp.2.2.2.1⟩
        · rcases List.mem_cons.mp h2 with rfl | h3
          · exact ⟨by decide, by decide⟩
          · obtain ⟨d, hd', rfl⟩ := List.mem_map.mp h3
            have hp := digCh_props d (hcents d hd')
            exact ⟨hp.2.2.2.2.1, hp.2.2.2.1⟩
    have hstrip : stripWS ((if neg then ['-'] else []) ++ M) =
        (if neg then ['-'] else []) ++ M :=
      stripWS_eq_self _ (fun c hc => (hchars c hc).1)
    have hus : usOk none ((if neg then ['-'] else []) ++ M) = true :=
      usOk_of_no_underscore _ (fun hmem => ((hchars '_' hmem).2) rfl) none
    have hfilter : ((if neg then ['-'] else []) ++ M).filter (fun c => c ≠ '_') =
        (if neg then ['-'] else []) ++ M :=
      List.filter_eq_self.mpr (fun c hc => by simpa using (hchars c hc).2)
    have hsign : readSign ((if neg then ['-'] else []) ++ M) = (neg, M) := by
      cases neg with
      | true => simp [readSign]
      | false =>
        show readSign M = (false, M)
        rw [hMcons]
        have h1 := (digCh_props d0 hd0).2.2.2.2.2.1
        have h2 := (digCh_props d0 hd0).2.2.2.2.2.2.1
        simp [readSign, h1, h2]
    have hkw1 : kwIs M ['i', 'n', 'f'] = false := by
      rw [hMcons]
      exact kwIs_false_of_head _ _ _ _ (digCh_props d0 hd0).2.2.2.2.2.2.2.1
    have hkw2 : kwIs M ['i', 'n', 'f', 'i', 'n', 'i', 't', 'y'] = false := by
      rw [hMcons]
      exact kwIs_false_of_head _ _ _ _ (digCh_props d0 hd0).2.2.2.2.2.2.2.1
    have hkw3 : kwIs M ['n', 'a', 'n'] = false := by
      rw [hMcons]
      exact kwIs_false_of_head _ _ _ _ (digCh_props d0 hd0).2.2.2.2.2.2.2.2
    have hspan1 := span_digits ((d0 :: lead0) ++ groups.flatten) hds
      ('.' :: cents.map digCh) (by rw [List.takeWhile_cons, isDig_dot]; rfl)
    have hspan2 := span_digits cents hcents [] rfl
    rw [List.append_nil] at hspan2
    have hrn : readNumber neg M =
        readExp neg (((d0 :: lead0) ++ groups.flatten).map digCh)
          (cents.map digCh) [] := by
      unfold readNumber
      rw [hM]
      rw [hspan1.1, hspan1.2]
      show (if ('.' : Char) = '.' then _ else _) = _
      rw [if_pos rfl]
      rw [hspan2.1, hspan2.2]
      have hne : (((d0 :: lead0) ++ groups.flatten).map digCh).isEmpty = false := by
        simp
      rw [hne]
      simp
    have hval : mkRatVal neg (((d0 :: lead0) ++ groups.flatten).map digCh)
        (cents.map digCh) 0 = amountVal neg (d0 :: lead0) groups cents := by
      unfold mkRatVal amountVal
      have e1 : digitsVal (((d0 :: lead0) ++ groups.flatten).map digCh) =
          digitsValN ((d0 :: lead0) ++ groups.flatten) :=
        digitsVal_map_digCh _ hds 0
      have e2 : digitsVal (cents.map digCh) = digitsValN cents :=
        digitsVal_map_digCh _ hcents 0
      rw [List.length_map, hclen, e1, e2]
      norm_num
      rfl
    have hstart : parse_amount (renderAmount neg (d0 :: lead0) groups cents) =
        pyFloatChars ((if neg then ['-'] else []) ++ M) := by
      unfold parse_amount pyFloat
      rw [hdata2]
    rw [hstart]
    unfold pyFloatChars
    simp only [hstrip, hus, Bool.not_true, Bool.false_eq_true, if_false, hfilter,
      hsign, hkw1, hkw2, hkw3, Bool.or_false]
    rw [hrn]
    show some (PyFloat.finite (mkRatVal neg
      (((d0 :: lead0) ++ groups.flatten).map digCh) (cents.map digCh) 0)) = _
    rw [hval]
  · intro s h
    exact h

/-- Witness for C4: the shape `-48,40` parses to `-48.40` and the
non-numeric `abc` yields `none`. -/
theorem parse_amount_valid_shape_witness :
    parse_amount (renderAmount true [4, 8] [] [4, 0]) =
      some (.finite (amountVal true [4, 8] [] [4, 0])) ∧
    parse_amount "abc" = none :=
  ⟨parse_amount_valid_shape.1 true [4, 8] [] [4, 0] (by decide) (by decide)
      (by decide) (by decide) (by decide) (by decide),
    parse_amount_valid_shape.2 "abc" (by decide)⟩

/-! ### Token lemmas for `parse_date` (C5) -/

theorem isDig_recon (c : Char) (h : isDig c = true) :
    dval c < 10 ∧ c = digCh (dval c) := by
  have h0 : '0'.toNat = 48 := rfl
  have h1 : 48 ≤ c.toNat ∧ c.toNat ≤ 57 := by simpa [isDig] using h
  have h2 : dval c < 10 := by unfold dval; omega
  refine ⟨h2, ?_⟩
  unfold digCh dval
  have h3 : '0'.toNat + (c.toNat - '0'.toNat) = c.toNat := by omega
  rw [h3, Char.ofNat_toNat]

theorem digCh_zero : digCh 0 = '0' := by decide

theorem dayOne_recon (c : Char) (h : dayOne c = true) :
    1 ≤ dval c ∧ dval c ≤ 9 ∧ c = digCh (dval c) := by
  have h1 : isDig c = true ∧ c ≠ '0' := by simpa [dayOne] using h
  obtain ⟨hlt, hrec⟩ := isDig_recon c h1.1
  refine ⟨?_, by omega, hrec⟩
  rcases Nat.eq_zero_or_pos (dval c) with h0 | h0
  · exact absurd (by rw [hrec, h0, digCh_zero]) h1.2
  · exact h0

theorem dayTwo_digits (c1 c2 : Char) (h : dayTwo c1 c2 = true) :
    isDig c1 = true ∧ isDig c2 = true := by
  simp only [dayTwo, Bool.or_eq_true, Bool.and_eq_true] at h
  rcases h with (⟨h1, h2⟩ | ⟨h1, h2⟩) | ⟨⟨h1, h2⟩, h3⟩
  · rcases h2 with h2 | h2 <;>
      simp only [decide_eq_true_eq] at h1 h2 <;> subst h1 <;> subst h2 <;>
      exact ⟨by decide, by decide⟩
  · rcases h1 with h1 | h1 <;>
      simp only [decide_eq_true_eq] at h1 <;> subst h1 <;> exact ⟨by decide, h2⟩
  · simp only [decide_eq_true_eq] at h1
    subst h1
    exact ⟨by decide, h2⟩

theorem monTwo_digits (c1 c2 : Char) (h : monTwo c1 c2 = true) :
    isDig c1 = true ∧ isDig c2 = true := by
  simp only [monTwo, Bool.or_eq_true, Bool.and_eq_true] at h
  rcases h with ⟨h1, h2⟩ | ⟨⟨h1, h2⟩, h3⟩
  · rcases h2 with (h2 | h2) | h2 <;>
      simp only [decide_eq_true_eq] at h1 h2 <;> subst h1 <;> subst h2 <;>
      exact ⟨by decide, by decide⟩
  · simp only [decide_eq_true_eq] at h1
    subst h1
    exact ⟨by decide, h2⟩

theorem dayTok_facts1 : ∀ d, d < 32 → 10 ≤ d →
    dayTwo (digCh (d / 10)) (digCh (d % 10)) = true ∧
    10 * dval (digCh (d / 10)) + dval (digCh (d % 10)) = d := by decide

theorem dayTok_facts2 : ∀ d, d < 10 → 1 ≤ d →
    dayTwo '0' (digCh d) = true ∧ 10 * dval '0' + dval (digCh d) = d ∧
    dayTwo (digCh d) '.' = false ∧ dayOne (digCh d) = true ∧
    dval (digCh d) = d := by decide

theorem monTok_facts1 : ∀ m, m < 13 → 10 ≤ m →
    monTwo (digCh (m / 10)) (digCh (m % 10)) = true ∧
    10 * dval (digCh (m / 10)) + dval (digCh (m % 10)) = m := by decide

theorem monTok_facts2 : ∀ m, m < 10 → 1 ≤ m →
    monTwo '0' (digCh m) = true ∧ 10 * dval '0' + dval (digCh m) = m ∧
    monTwo (digCh m) '.' = false ∧ dayOne (digCh m) = true ∧
    dval (digCh m) = m := by decide

theorem dayTwo_inv : ∀ a, a < 10 → ∀ b, b < 10 →
    dayTwo (digCh a) (digCh b) = true →
    (10 ≤ 10 * a + b ∧ 10 * a + b ≤ 31) ∨ (a = 0 ∧ 1 ≤ b ∧ b ≤ 9) := by decide

theorem monTwo_inv : ∀ a, a < 10 → ∀ b, b < 10 →
    monTwo (digCh a) (digCh b) = true →
    (10 ≤ 10 * a + b ∧ 10 * a + b ≤ 12) ∨ (a = 0 ∧ 1 ≤ b ∧ b ≤ 9) := by decide

theorem readTok_day (d : Nat) (ld : List Char) (hr : DayRendering d ld)
    (r : List Char) :
    readTok dayTwo dayOne (ld ++ '.' :: r) = some (d, '.' :: r) := by
  rcases hr with ⟨h10, h31, rfl⟩ | ⟨h1, h9, hl⟩
  · have hf := dayTok_facts1 d (by omega) h10
    show readTok dayTwo dayOne
      (digCh (d / 10) :: digCh (d % 10) :: '.' :: r) = _
    simp [readTok, hf.1, hf.2]
  · have hf := dayTok_facts2 d (by omega) h1
    rcases hl with rfl | rfl
    · have hd10 : d / 10 = 0 := by omega
      have hdm : d % 10 = d := by omega
      show readTok dayTwo dayOne
        (digCh (d / 10) :: digCh (d % 10) :: '.' :: r) = _
      rw [hd10, hdm, digCh_zero]
      simp [readTok, hf.1, hf.2.1]
    · show readTok dayTwo dayOne (digCh d :: '.' :: r) = _
      simp [readTok, hf.2.2.1, hf.2.2.2.1, hf.2.2.2.2]

theorem readTok_mon (m : Nat) (lm : List Char) (hr : MonRendering m lm)
    (r : List Char) :
    readTok monTwo dayOne (lm ++ '.' :: r) = some (m, '.' :: r) := by
  rcases hr with ⟨h10, h12, rfl⟩ | ⟨h1, h9, hl⟩
  · have hf := monTok_facts1 m (by omega) h10
    show readTok monTwo dayOne
      (digCh (m / 10) :: digCh (m % 10) :: '.' :: r) = _
    simp [readTok, hf.1, hf.2]
  · have hf := monTok_facts2 m (by omega) h1
    rcases hl with rfl | rfl
    · have hd10 : m / 10 = 0 := by omega
      have hdm : m % 10 = m := by omega
      show readTok monTwo dayOne
        (digCh (m / 10) :: digCh (m % 10) :: '.' :: r) = _
      rw [hd10, hdm, digCh_zero]
      simp [readTok, hf.1, hf.2.1]
    · show readTok monTwo dayOne (digCh m :: '.' :: r) = _
      simp [readTok, hf.2.2.1, hf.2.2.2.1, hf.2.2.2.2]

theorem readTok_day_inv (l : List Char) (d : Nat) (r : List Char)
    (h : readTok dayTwo dayOne l = some (d, r)) :
    ∃ ld, DayRendering d ld ∧ l = ld ++ r := by
  match l with
  | [] => simp [readTok] at h
  | [c1] =>
    rw [readTok] at h
    by_cases h1 : dayOne c1 = true
    · rw [if_pos h1] at h
      obtain ⟨hd, hr⟩ : dval c1 = d ∧ [] = r := by
        simpa using h
      obtain ⟨ha, hb, hrec⟩ := dayOne_recon c1 h1
      subst hd
      exact ⟨oneD (dval c1), Or.inr ⟨ha, hb, Or.inr (by rw [oneD, ← hrec])⟩,
        by rw [← hr, oneD, ← hrec]; simp⟩
    · rw [if_neg h1] at h
      simp at h
  | c1 :: c2 :: t =>
    rw [readTok] at h
    by_cases h2 : dayTwo c1 c2 = true
    · rw [if_pos h2] at h
      obtain ⟨hd, hr⟩ : 10 * dval c1 + dval c2 = d ∧ t = r := by
        simpa using h
      obtain ⟨hg1, hg2⟩ := dayTwo_digits c1 c2 h2
      obtain ⟨ha1, ha2⟩ := isDig_recon c1 hg1
      obtain ⟨hb1, hb2⟩ := isDig_recon c2 hg2
      rw [ha2, hb2] at h2
      rcases dayTwo_inv (dval c1) ha1 (dval c2) hb1 h2 with ⟨hge, hle⟩ | ⟨h0, hge, hle⟩
      · refine ⟨twoD d, Or.inl ⟨by omega, by omega, rfl⟩, ?_⟩
        have e1 : d / 10 = dval c1 := by omega
        have e2 : d % 10 = dval c2 := by omega
        rw [twoD, e1, e2, ← ha2, ← hb2, hr]
        rfl
      · refine ⟨twoD d, Or.inr ⟨by omega, by omega, Or.inl rfl⟩, ?_⟩
        have e1 : d / 10 = dval c1 := by omega
        have e2 : d % 10 = dval c2 := by omega
        rw [twoD, e1, e2, ← ha2, ← hb2, hr]
        rfl
    · rw [if_neg h2] at h
      by_cases h1 : dayOne c1 = true
      · rw [if_pos h1] at h
        obtain ⟨hd, hr⟩ : dval c1 = d ∧ c2 :: t = r := by
          simpa using h
        obtain ⟨ha, hb, hrec⟩ := dayOne_recon c1 h1
        subst hd
        exact ⟨oneD (dval c1), Or.inr ⟨ha, hb, Or.inr (by rw [oneD, ← hrec])⟩,
          by rw [← hr, oneD, ← hrec]; simp⟩
      · rw [if_neg h1] at h
        simp at h

theorem readTok_mon_inv (l : List Char) (m : Nat) (r : List Char)
    (h : readTok monTwo dayOne l = some (m, r)) :
    ∃ lm, MonRendering m lm ∧ l = lm ++ r := by
  match l with
  | [] => simp [readTok] at h
  | [c1] =>
    rw [readTok] at h
    by_cases h1 : dayOne c1 = true
    · rw [if_pos h1] at h
      obtain ⟨hd, hr⟩ : dval c1 = m ∧ [] = r := by
        simpa using h
      obtain ⟨ha, hb, hrec⟩ := dayOne_recon c1 h1
      subst hd
      exact ⟨oneD (dval c1), Or.inr ⟨ha, hb, Or.inr (by rw [oneD, ← hrec])⟩,
        by rw [← hr, oneD, ← hrec]; simp⟩
    · rw [if_neg h1] at h
      simp at h
  | c1 :: c2 :: t =>
    rw [readTok] at h
    by_cases h2 : monTwo c1 c2 = true
    · rw [if_pos h2] at h
      obtain ⟨hd, hr⟩ : 10 * dval c1 + dval c2 = m ∧ t = r := by
        simpa using h
      obtain ⟨hg1, hg2⟩ := monTwo_digits c1 c2 h2
      obtain ⟨ha1, ha2⟩ := isDig_recon c1 hg1
      obtain ⟨hb1, hb2⟩ := isDig_recon c2 hg2
      rw [ha2, hb2] at h2
      rcases monTwo_inv (dval c1) ha1 (dval c2) hb1 h2 with ⟨hge, hle⟩ | ⟨h0, hge, hle⟩
      · refine ⟨twoD m, Or.inl ⟨by omega, by omega, rfl⟩, ?_⟩
        have e1 : m / 10 = dval c1 := by omega
        have e2 : m % 10 = dval c2 := by omega
        rw [twoD, e1, e2, ← ha2, ← hb2, hr]
        rfl
      · refine ⟨twoD m, Or.inr ⟨by omega, by omega, Or.inl rfl⟩, ?_⟩
        have e1 : m / 10 = dval c1 := by omega
        have e2 : m % 10 = dval c2 := by omega
        rw [twoD, e1, e2, ← ha2, ← hb2, hr]
        rfl
    · rw [if_neg h2] at h
      by_cases h1 : dayOne c1 = true
      · rw [if_pos h1] at h
        obtain ⟨hd, hr⟩ : dval c1 = m ∧ c2 :: t = r := by
          simpa using h
        obtain ⟨ha, hb, hrec⟩ := dayOne_recon c1 h1
        subst hd
        exact ⟨oneD (dval c1), Or.inr ⟨ha, hb, Or.inr (by rw [oneD, ← hrec])⟩,
          by rw [← hr, oneD, ← hrec]; simp⟩
      · rw [if_neg h1] at h
        simp at h

theorem readYear4_fourD (y : Nat) (hy : y ≤ 9999) :
    readYear4 (fourD y) = some (y, []) := by
  have h1 : y / 1000 < 10 := by omega
  have h2 : y / 100 % 10 < 10 := by omega
  have h3 : y / 10 % 10 < 10 := by omega
  have h4 : y % 10 < 10 := by omega
  show readYear4 [digCh (y / 1000), digCh (y / 100 % 10), digCh (y / 10 % 10),
    digCh (y % 10)] = _
  rw [readYear4]
  rw [(digCh_props _ h1).1, (digCh_props _ h2).1, (digCh_props _ h3).1,
    (digCh_props _ h4).1]
  simp only [Bool.and_self, if_true]
  simp only [digitsVal, List.foldl_cons, List.foldl_nil,
    dval_digCh _ h1, dval_digCh _ h2, dval_digCh _ h3, dval_digCh _ h4]
  have : 10 * (10 * (10 * (10 * 0 + y / 1000) + y / 100 % 10) + y / 10 % 10) +
      y % 10 = y := by omega
  rw [this]

theorem readYear4_inv (l : List Char) (y : Nat) (r : List Char)
    (h : readYear4 l = some (y, r)) : y ≤ 9999 ∧ l = fourD y ++ r := by
  match l with
  | [] => simp [readYear4] at h
  | [_] => simp [readYear4] at h
  | [_, _] => simp [readYear4] at h
  | [_, _, _] => simp [readYear4] at h
  | a :: b :: c :: e :: t =>
    rw [readYear4] at h
    by_cases hd : (isDig a && isDig b && isDig c && isDig e) = true
    · rw [if_pos hd] at h
      simp only [Bool.and_eq_true] at hd
      obtain ⟨⟨⟨hda, hdb⟩, hdc⟩, hde⟩ := hd
      obtain ⟨ha1, ha2⟩ := isDig_recon a hda
      obtain ⟨hb1, hb2⟩ := isDig_recon b hdb
      obtain ⟨hc1, hc2⟩ := isDig_recon c hdc
      obtain ⟨he1, he2⟩ := isDig_recon e hde
      obtain ⟨hy, hr⟩ : digitsVal [a, b, c, e] = y ∧ t = r := by simpa using h
      have hval : digitsVal [a, b, c, e] =
          10 * (10 * (10 * dval a + dval b) + dval c) + dval e := by
        simp [digitsVal, List.foldl_cons]
      rw [hval] at hy
      constructor
      · omega
      · have e1 : y / 1000 = dval a := by omega
        have e2 : y / 100 % 10 = dval b := by omega
        have e3 : y / 10 % 10 = dval c := by omega
        have e4 : y % 10 = dval e := by omega
        rw [fourD, e1, e2, e3, e4, ← ha2, ← hb2, ← hc2, ← he2, hr]
        rfl
    · rw [if_neg hd] at h
      simp at h

/-- C5 counterexample: `strptime("%d.%m.%Y")` accepts a one-digit day,
so `parse_date` succeeds on `"4.12.2024"`, which the claim's strict
`DD.MM.YYYY` reading requires it to reject. -/
theorem parse_date_accepts_unpadded :
    parse_date "4.12.2024" = some ⟨2024, 12, 4⟩ := by decide

/-- C5 amended: `parse_date` succeeds exactly on the strings
`strptime("%d.%m.%Y")` tokenizes — day and month written with one digit
(`1`–`9`) or two digits (`01`–`31`, `01`–`12`), separated by dots from
an exactly four-digit year — that denote a valid calendar date
(year at least 1, day no larger than the month's length); every other
string yields `none`. -/
theorem parse_date_characterization :
    ∀ (s : String) (y m d : Nat),
      parse_date s = some ⟨y, m, d⟩ ↔
        DateShape s y m d ∧ 1 ≤ y ∧ d ≤ daysInMonth y m := by
  intro s y m d
  constructor
  · intro h
    unfold parse_date at h
    rcases hA : readTok dayTwo dayOne s.data with - | p
    · rw [hA] at h; simp at h
    obtain ⟨d1, r⟩ := p
    rw [hA] at h
    dsimp only [] at h
    rcases r with - | ⟨c1, r1⟩
    · simp at h
    dsimp only [] at h
    by_cases hc1 : c1 = '.'
    case neg => rw [if_neg hc1] at h; simp at h
    subst hc1
    rw [if_pos rfl] at h
    rcases hB : readTok monTwo dayOne r1 with - | q
    · rw [hB] at h; simp at h
    obtain ⟨m1, r2⟩ := q
    rw [hB] at h
    dsimp only [] at h
    rcases r2 with - | ⟨c2, r3⟩
    · simp at h
    dsimp only [] at h
    by_cases hc2 : c2 = '.'
    case neg => rw [if_neg hc2] at h; simp at h
    subst hc2
    rw [if_pos rfl] at h
    rcases hC : readYear4 r3 with - | w
    · rw [hC] at h; simp at h
    obtain ⟨y1, r4⟩ := w
    rw [hC] at h
    dsimp only [] at h
    rcases r4 with - | ⟨c3, r5⟩
    swap
    · simp at h
    dsimp only [] at h
    by_cases hok : 1 ≤ y1 ∧ d1 ≤ daysInMonth y1 m1
    case neg => rw [if_neg hok] at h; simp at h
    rw [if_pos hok] at h
    obtain ⟨hy1, hm1, hd1⟩ : y1 = y ∧ m1 = m ∧ d1 = d := by
      simpa [Date.mk.injEq] using h
    subst hy1; subst hm1; subst hd1
    obtain ⟨ld, hD, hsplit1⟩ := readTok_day_inv s.data d1 ('.' :: r1) hA
    obtain ⟨lm, hM, hsplit2⟩ := readTok_mon_inv r1 m1 ('.' :: r3) hB
    obtain ⟨hy9, hsplit3⟩ := readYear4_inv r3 y1 [] hC
    rw [List.append_nil] at hsplit3
    refine ⟨⟨ld, lm, hD, hM, hy9, ?_⟩, hok⟩
    rw [hsplit1, hsplit2, hsplit3]
  · rintro ⟨⟨ld, lm, hD, hM, hy9, hsd⟩, hok⟩
    unfold parse_date
    rw [hsd]
    rw [readTok_day d ld hD (lm ++ ('.' :: fourD y))]
    dsimp only []
    rw [if_pos rfl]
    rw [readTok_mon m lm hM (fourD y)]
    dsimp only []
    rw [if_pos rfl]
    rw [readYear4_fourD y hy9]
    dsimp only []
    rw [if_pos hok]

/-- Witness for C5 at the sample date string. -/
theorem parse_date_characterization_witness :
    parse_date "04.12.2024" = some ⟨2024, 12, 4⟩ ↔
      DateShape "04.12.2024" 2024 12 4 ∧ 1 ≤ 2024 ∧ 4 ≤ daysInMonth 2024 12 :=
  parse_date_characterization "04.12.2024" 2024 12 4

/-- C3: the sort `parse_pdfs` performs is numpy's default introsort,
which is not stable — on 17 records with pairwise-equal booking dates
the argsort trace returns the permutation below, not arrival order
(16 equal records, still inside the insertion-sort threshold, do keep
arrival order). -/
theorem default_quicksort_not_stable :
    npArgsortEqualKeys 16 = List.range 16 ∧
    npArgsortEqualKeys 17 =
      [0, 14, 13, 12, 11, 10, 9, 15, 8, 6, 5, 4, 3, 2, 1, 7, 16] ∧
    npArgsortEqualKeys 17 ≠ List.range 17 :=
  ⟨by decide, by decide, by decide⟩

end Finflow
